import Mathlib

/-!
# magicbox: the recording reverse proxy (`proxy/proxy.go`)

A shallow embedding of the Go package `proxy`: the response recorder that wraps an
`http.ResponseWriter`, the request mapping that replays the request body, the JSON
helper `_toJson` and `RecordingProxy.ServeHTTP`.

Conventions of the embedding.

* A Go `[]byte` and a Go `string` are both sequences of bytes; the two Go types are kept
  apart by the constructor of `Value` that carries them.
* Go maps (`http.Header`) are reference values: they are represented by a reference into
  a heap of header maps.
* Collaborators that the package only calls (the real `http.ResponseWriter`, the
  reverse proxy it embeds, `encoding/json`) are parameters of the definitions.
* Methods that mutate their receiver return the updated receiver.
* A call of the real writer or of the reverse proxy either returns or panics; a panic
  ends the calling function at the call, since the package has no `recover`.
-/

namespace Proxy

/-! ## Bytes, strings and readers -/

/-- One byte. -/
abbrev Byte := Fin 256

/-- A Go byte slice `[]byte`. -/
abbrev Bytes := List Byte

/-- A Go `string`: an arbitrary sequence of bytes. -/
abbrev GoString := List Byte

/-- The bytes of an ASCII literal. -/
def ascii (s : String) : Bytes :=
  s.toList.map fun c => Fin.ofNat c.toNat

/-- The error value of a `Read` call that is not `nil`. -/
inductive ReadErr where
  /-- The sentinel `io.EOF`. -/
  | EOF
  /-- Any other error, for instance a client that disconnects during the upload. -/
  | failure (msg : String)
  deriving DecidableEq, Repr

/-- What one call of `Read` hands back: the bytes delivered and the error value. -/
structure ReadResult where
  /-- The `n` bytes placed in the caller's buffer. -/
  data : Bytes
  /-- The error returned with them, `none` for `nil`. -/
  err : Option ReadErr
  deriving DecidableEq, Repr

/-- An `io.ReadCloser` with at-most-once-read semantics, given by the results of its
successive `Read` calls. Once the script is used up every further `Read` returns
`(0, io.EOF)`. -/
abbrev Reader := List ReadResult

/-- One `Read` call: its result and the reader that remains. -/
def Reader.Read : Reader → ReadResult × Reader
  | [] => (⟨[], some ReadErr.EOF⟩, [])
  | r :: rest => (r, rest)

/-- The reader `bytes.NewBuffer(buf)`: it delivers the unread contents of the buffer and
then reports `io.EOF`; an empty buffer reports `io.EOF` at once. -/
def bytes.NewBuffer (buf : Bytes) : Reader :=
  if buf = [] then [] else [⟨buf, none⟩]

/-- The wrapper `ioutil.NopCloser(r)`: the same reader with a `Close` that does nothing. -/
def ioutil.NopCloser (r : Reader) : Reader := r

/-- The loop of `ioutil.ReadAll(r)`: call `Read` until it returns an error, keeping every
byte delivered, the ones that come with the error included. `io.EOF` is reported as
`nil`, any other error is returned beside the bytes read so far. -/
def ioutil.ReadAll : Reader → Bytes × Option ReadErr
  | [] => ([], none)
  | ⟨data, none⟩ :: rest =>
      let (more, err) := ioutil.ReadAll rest
      (data ++ more, err)
  | ⟨data, some ReadErr.EOF⟩ :: _ => (data, none)
  | ⟨data, some (ReadErr.failure msg)⟩ :: _ => (data, some (ReadErr.failure msg))

/-- A body stream that delivers the given chunks, one per `Read`, and then ends. -/
def chunkedBody (chunks : List Bytes) : Reader :=
  chunks.map fun c => ⟨c, none⟩

/-- A body stream that delivers the given chunks, then a last `Read` that returns
`last` together with a read failure; `rest` is what the stream would have returned
had it been read further. -/
def failingBody (chunks : List Bytes) (last : Bytes) (msg : String) (rest : Reader) : Reader :=
  chunkedBody chunks ++ ⟨last, some (ReadErr.failure msg)⟩ :: rest

/-! ## Requests and field mappings -/

/-- A reference to a header map (`http.Header` is a Go map, hence a reference value). -/
abbrev Ref := Nat

/-- The contents of an `http.Header`: header name to sequence of values. -/
abbrev Header := List (GoString × List GoString)

/-- The heap of header maps. -/
abbrev Heap := Ref → Header

/-- The fields of `url.URL` that the specification names. -/
structure URL where
  Scheme : GoString
  Host : GoString
  Path : GoString
  RawQuery : GoString
  deriving DecidableEq, Repr

/-- The fields of `http.Request` that the package reads or writes. -/
structure Request where
  Method : GoString
  URL : URL
  Header : Ref
  Body : Reader
  deriving DecidableEq, Repr

/-- A Go value stored in a `map[string]interface{}`, by its dynamic type. -/
inductive Value where
  /-- An `int`. -/
  | int (n : Int)
  /-- A `string`. -/
  | str (s : GoString)
  /-- A `[]byte`. -/
  | bytes (b : Bytes)
  /-- An `http.Header`, the map itself (a reference). -/
  | headers (ref : Ref)
  /-- A `*url.URL`. -/
  | url (u : URL)
  /-- A value of a type that `encoding/json` cannot represent (a channel, a function). -/
  | unsupported (goType : String)
  deriving DecidableEq, Repr

/-- A `map[string]interface{}` literal: its keys with their values, in source order. -/
abbrev Fields := List (String × Value)

/-- The value stored under a key. -/
def Fields.get (m : Fields) (key : String) : Option Value :=
  (m.find? fun kv => kv.1 == key).map Prod.snd

/-- The keys of the mapping. -/
def Fields.keys (m : Fields) : List String := m.map Prod.fst

/-- The method `jsonableRequest.Map`: read the whole body, put a fresh reader over the
bytes read back on the request, and return the field mapping. The error of `ReadAll` is
discarded. The receiver embeds `*http.Request`, so the caller sees the new `Body`: the
updated request is returned beside the mapping. -/
def jsonableRequest.Map (r : Request) : Fields × Request :=
  let (bodyBuf, _) := ioutil.ReadAll r.Body
  let reader := ioutil.NopCloser (bytes.NewBuffer bodyBuf)
  let r := { r with Body := reader }
  ([("method", Value.str r.Method),
    ("url", Value.url r.URL),
    ("headers", Value.headers r.Header),
    ("body", Value.bytes bodyBuf)], r)

/-! ## The response recorder -/

/-- What `Write` returns: the byte count and the error, `none` for `nil`. -/
abbrev WriteResult := Int × Option String

/-- How a call ends: it returns a value, or it panics and does not return. -/
inductive Outcome (α : Type) where
  /-- The call returns. -/
  | returned (value : α)
  /-- The call panics with the value `v`. -/
  | panicked (v : String)
  deriving DecidableEq, Repr

/-- The interface `http.ResponseWriter`, as the method table of an implementation whose
state has type `σ`. The implementation is the real output target; nothing is assumed
about what its methods do, and they may panic (the writer of `net/http` panics in
`WriteHeader` on an invalid status code). -/
structure http.ResponseWriter (σ : Type) where
  /-- The header map that will be sent. -/
  Header : σ → Ref
  /-- Write a chunk of the body. -/
  Write : σ → Bytes → Outcome WriteResult × σ
  /-- Send the status code. -/
  WriteHeader : σ → Int → Outcome Unit × σ
  /-- What the dynamic type has beyond the interface, as a type assertion such as
  `w.(http.Flusher)` or `w.(http.Hijacker)` finds it: by the name of the asserted
  interface, the effect of its method, and `none` when the assertion fails. -/
  optional : String → Option (σ → σ)

/-- A writer seen through the three methods of the interface alone: every type assertion
for a further interface fails. -/
def http.ResponseWriter.interfaceOnly {σ : Type} (impl : http.ResponseWriter σ) :
    http.ResponseWriter σ :=
  { impl with optional := fun _ => none }

/-- The struct `ResponseRecorder`: the embedded real `ResponseWriter` (its state), the
captured status code and the captured body. -/
structure ResponseRecorder (σ : Type) where
  ResponseWriter : σ
  statusCode : Int
  body : Bytes
  deriving DecidableEq, Repr

section Recorder

variable {σ : Type}

/-- The method `ResponseRecorder.WriteHeader`: store the status code, then hand it to the
real writer. When the real writer panics the status code has been stored already. -/
def ResponseRecorder.WriteHeader (impl : http.ResponseWriter σ) (rr : ResponseRecorder σ)
    (statusCode : Int) : Outcome Unit × ResponseRecorder σ :=
  let rr := { rr with statusCode := statusCode }
  let (res, real) := impl.WriteHeader rr.ResponseWriter statusCode
  (res, { rr with ResponseWriter := real })

/-- The method `ResponseRecorder.Write`: append the chunk to the captured body, then hand
it to the real writer and return what the real writer returns. When the real writer
panics the chunk has been appended already. -/
def ResponseRecorder.Write (impl : http.ResponseWriter σ) (rr : ResponseRecorder σ)
    (b : Bytes) : Outcome WriteResult × ResponseRecorder σ :=
  let rr := { rr with body := rr.body ++ b }
  let (res, real) := impl.Write rr.ResponseWriter b
  (res, { rr with ResponseWriter := real })

/-- The method `Header`, which the recorder does not define: it is promoted from the
embedded real writer. -/
def ResponseRecorder.Header (impl : http.ResponseWriter σ) (rr : ResponseRecorder σ) : Ref :=
  impl.Header rr.ResponseWriter

/-- The method `ResponseRecorder.Map`. The body goes through
`fmt.Sprintf("%s", rr.body)`, which yields the Go string with the bytes of the slice. -/
def ResponseRecorder.Map (impl : http.ResponseWriter σ) (rr : ResponseRecorder σ) : Fields :=
  [("statusCode", Value.int rr.statusCode),
   ("headers", Value.headers (ResponseRecorder.Header impl rr)),
   ("body", Value.str rr.body)]

/-- The recorder seen through the interface `http.ResponseWriter`, which is how the
reverse proxy sees it. The struct embeds the interface, not the dynamic type of the real
writer: its method set holds `Header`, `Write` and `WriteHeader` (and `String`, `Map`),
so a type assertion on the recorder for `http.Flusher` or `http.Hijacker` fails,
whatever the real writer implements. -/
def ResponseRecorder.asWriter (impl : http.ResponseWriter σ) :
    http.ResponseWriter (ResponseRecorder σ) where
  Header := ResponseRecorder.Header impl
  Write := ResponseRecorder.Write impl
  WriteHeader := ResponseRecorder.WriteHeader impl
  optional := fun _ => none

end Recorder

/-! ## Callers of a response writer -/

/-- A call made on a response writer. -/
inductive Call where
  | WriteHeader (statusCode : Int)
  | Write (b : Bytes)
  deriving DecidableEq, Repr

/-- Apply a sequence of calls, in order, to a writer, up to the first call that panics:
the writer afterwards, what the `Write` calls returned, and how the sequence ended. -/
def performCalls {σ : Type} (impl : http.ResponseWriter σ) :
    List Call → σ → σ × List WriteResult × Outcome Unit
  | [], w => (w, [], Outcome.returned ())
  | Call.WriteHeader statusCode :: rest, w =>
      match impl.WriteHeader w statusCode with
      | (Outcome.returned _, w1) => performCalls impl rest w1
      | (Outcome.panicked v, w1) => (w1, [], Outcome.panicked v)
  | Call.Write b :: rest, w =>
      match impl.Write w b with
      | (Outcome.returned res, w1) =>
          let (w2, results, ending) := performCalls impl rest w1
          (w2, res :: results, ending)
      | (Outcome.panicked v, w1) => (w1, [], Outcome.panicked v)

/-- The calls of a sequence that are made: all of them up to the first that panics,
that one included. -/
def callsMade {σ : Type} (impl : http.ResponseWriter σ) : List Call → σ → List Call
  | [], _ => []
  | Call.WriteHeader statusCode :: rest, w =>
      match impl.WriteHeader w statusCode with
      | (Outcome.returned _, w1) => Call.WriteHeader statusCode :: callsMade impl rest w1
      | (Outcome.panicked _, _) => [Call.WriteHeader statusCode]
  | Call.Write b :: rest, w =>
      match impl.Write w b with
      | (Outcome.returned _, w1) => Call.Write b :: callsMade impl rest w1
      | (Outcome.panicked _, _) => [Call.Write b]

/-- The chunks of the `Write` calls of a sequence, in call order. -/
def writtenChunks : List Call → List Bytes
  | [] => []
  | Call.WriteHeader _ :: rest => writtenChunks rest
  | Call.Write b :: rest => b :: writtenChunks rest

/-- A real output target that keeps the list of the calls it has received. Its `Write`
answers with `reply`, an arbitrary function of the calls received so far and of the
chunk. Its methods return, and it implements nothing beyond the interface. -/
def wireWriter (header : Ref) (reply : List Call → Bytes → WriteResult) :
    http.ResponseWriter (List Call) where
  Header := fun _ => header
  Write := fun received b => (Outcome.returned (reply received b), received ++ [Call.Write b])
  WriteHeader := fun received statusCode =>
    (Outcome.returned (), received ++ [Call.WriteHeader statusCode])
  optional := fun _ => none

/-- A real output target that keeps the list of the calls it has received and whose
`Write` panics with `v`, its `WriteHeader` too. -/
def brokenWriter (header : Ref) (v : String) : http.ResponseWriter (List Call) where
  Header := fun _ => header
  Write := fun received b => (Outcome.panicked v, received ++ [Call.Write b])
  WriteHeader := fun received statusCode =>
    (Outcome.panicked v, received ++ [Call.WriteHeader statusCode])
  optional := fun _ => none

/-- A handler (the forwarding primitive) as the tree of its interactions with the
response writer it is given: every node is one step, and the handler continues
according to what the step gave. It may return or panic (the reverse proxy of
`net/http/httputil` panics with `http.ErrAbortHandler` when the copy of the response
body fails), it may ask by a type assertion whether the writer implements a further
interface, and between calls it may update header maps through the references it
holds. -/
inductive Handler where
  /-- The handler returns. -/
  | done
  /-- The handler panics with the value `v`. -/
  | abort (v : String)
  /-- The call `w.Header()`. -/
  | Header (k : Ref → Handler)
  /-- The call `w.WriteHeader(statusCode)`. -/
  | WriteHeader (statusCode : Int) (k : Handler)
  /-- The call `w.Write(b)`. -/
  | Write (b : Bytes) (k : WriteResult → Handler)
  /-- An update of header maps. -/
  | updateHeaders (f : Heap → Heap) (k : Handler)
  /-- The type assertion `w.(iface)`: when it holds the handler calls the method of the
  interface and goes on with `supported`, otherwise it goes on with `fallback`. -/
  | optional (iface : String) (supported fallback : Handler)

/-- Run a handler against a writer: the writer and the header maps afterwards, and how
the handler ended. A panic of the writer ends the handler with that panic. -/
def Handler.run {σ : Type} (impl : http.ResponseWriter σ) :
    Handler → σ × Heap → (σ × Heap) × Outcome Unit
  | Handler.done, s => (s, Outcome.returned ())
  | Handler.abort v, s => (s, Outcome.panicked v)
  | Handler.Header k, (w, heap) => Handler.run impl (k (impl.Header w)) (w, heap)
  | Handler.WriteHeader statusCode k, (w, heap) =>
      match impl.WriteHeader w statusCode with
      | (Outcome.returned _, w1) => Handler.run impl k (w1, heap)
      | (Outcome.panicked v, w1) => ((w1, heap), Outcome.panicked v)
  | Handler.Write b k, (w, heap) =>
      match impl.Write w b with
      | (Outcome.returned res, w1) => Handler.run impl (k res) (w1, heap)
      | (Outcome.panicked v, w1) => ((w1, heap), Outcome.panicked v)
  | Handler.updateHeaders f k, (w, heap) => Handler.run impl k (w, f heap)
  | Handler.optional iface supported fallback, (w, heap) =>
      match impl.optional iface with
      | some method => Handler.run impl supported (method w, heap)
      | none => Handler.run impl fallback (w, heap)

/-- The handler makes no `WriteHeader` call, whatever its steps give. -/
def Handler.neverWritesHeader : Handler → Prop
  | Handler.done => True
  | Handler.abort _ => True
  | Handler.Header k => ∀ ref, (k ref).neverWritesHeader
  | Handler.WriteHeader _ _ => False
  | Handler.Write _ k => ∀ res, (k res).neverWritesHeader
  | Handler.updateHeaders _ k => k.neverWritesHeader
  | Handler.optional _ supported fallback =>
      supported.neverWritesHeader ∧ fallback.neverWritesHeader

/-- The handler that makes the given calls in order, whatever they return. -/
def Handler.ofCalls : List Call → Handler
  | [] => Handler.done
  | Call.WriteHeader statusCode :: rest => Handler.WriteHeader statusCode (Handler.ofCalls rest)
  | Call.Write b :: rest => Handler.Write b fun _ => Handler.ofCalls rest

/-! ## Serialisation and the recording proxy -/

/-- The two entry points of `encoding/json` that `_toJson` calls. Each returns the
encoded bytes and the error, `none` for `nil`; the header maps are read from the heap. -/
structure JSON where
  /-- The function `json.Marshal(v)`. -/
  Marshal : Heap → Fields → Bytes × Option String
  /-- The function `json.MarshalIndent(v, pfx, indent)`. -/
  MarshalIndent : Heap → Fields → String → String → Bytes × Option String

/-- What the package does that is visible outside it. -/
inductive Event where
  /-- A call `fmt.Printf(format, arg)`, which prints on standard output. -/
  | Printf (format : String) (arg : Bytes)
  /-- A call `log.Printf(format, err)`, which prints on the operational log. -/
  | logPrintf (format : String) (err : String)
  /-- The call `p.ReverseProxy.ServeHTTP(rr, r)`. -/
  | forward (r : Request)
  deriving DecidableEq, Repr

/-- The interface `Jsonable`. `Map` may update what the receiver refers to, so it
returns the receiver beside the mapping. -/
structure Jsonable (α : Type) where
  Map : α → Fields × α

/-- The type `jsonableRequest` implements `Jsonable`. -/
def jsonableRequest.jsonable : Jsonable Request where
  Map := jsonableRequest.Map

/-- The type `ResponseRecorder` implements `Jsonable`. -/
def ResponseRecorder.jsonable {σ : Type} (impl : http.ResponseWriter σ) :
    Jsonable (ResponseRecorder σ) where
  Map := fun rr => (ResponseRecorder.Map impl rr, rr)

/-- The function `_toJson`: encode the mapping of `rr`, indented or compact; log the
error of the encoder if there is one; return the bytes the encoder returned, in both
cases. The result is those bytes, the receiver, and the events of the call. -/
def _toJson {α : Type} (json : JSON) (J : Jsonable α) (rr : α) (pretty : Bool)
    (heap : Heap) : Bytes × α × List Event :=
  let (m, rr) := J.Map rr
  let (json_str, err) :=
    if pretty then json.MarshalIndent heap m "" "    " else json.Marshal heap m
  let logged :=
    match err with
    | some e => [Event.logPrintf "%+v\n" e]
    | none => []
  (json_str, rr, logged)

/-- The function `prettyJson`. -/
def prettyJson {α : Type} (json : JSON) (J : Jsonable α) (rr : α) (heap : Heap) :
    Bytes × α × List Event :=
  _toJson json J rr true heap

/-- The function `toJson`. -/
def toJson {α : Type} (json : JSON) (J : Jsonable α) (rr : α) (heap : Heap) :
    Bytes × α × List Event :=
  _toJson json J rr false heap

/-- The struct `RecordingProxy`: the embedded reverse proxy, given by the handler it
runs for a request. -/
structure RecordingProxy where
  ReverseProxy : Request → Handler

/-- What a call of `RecordingProxy.ServeHTTP` leaves behind. -/
structure Served (σ : Type) where
  /-- The recorder `rr`, which holds the real writer. -/
  recorder : ResponseRecorder σ
  /-- The request, as the reverse proxy received it. -/
  request : Request
  /-- The heap of header maps. -/
  heap : Heap
  /-- The events, in order. -/
  events : List Event
  /-- How the call ended. -/
  ending : Outcome Unit

/-- The method `RecordingProxy.ServeHTTP`. It has no `defer` and no `recover`: when the
reverse proxy panics, the panic leaves `ServeHTTP` at once and the statement after the
call is not run. -/
def RecordingProxy.ServeHTTP {σ : Type} (json : JSON) (p : RecordingProxy)
    (impl : http.ResponseWriter σ) (w : σ) (r : Request) (heap : Heap) : Served σ :=
  let (reqJson, r, log1) := toJson json jsonableRequest.jsonable r heap
  let out1 := [Event.Printf "Proxying request: %s\n" reqJson]
  let rr : ResponseRecorder σ := ⟨w, 200, []⟩
  let call := [Event.forward r]
  match (p.ReverseProxy r).run (ResponseRecorder.asWriter impl) (rr, heap) with
  | ((rr, heap), Outcome.panicked v) =>
      ⟨rr, r, heap, log1 ++ out1 ++ call, Outcome.panicked v⟩
  | ((rr, heap), Outcome.returned _) =>
      let (respJson, rr, log2) := toJson json (ResponseRecorder.jsonable impl) rr heap
      let out2 := [Event.Printf "Response: %s\n" respJson]
      ⟨rr, r, heap, log1 ++ out1 ++ call ++ log2 ++ out2, Outcome.returned ()⟩

/-! ## The encoding of `encoding/json`

`encoding/json` documents that a `[]byte` value is encoded as a base64 string in the
standard encoding, that the keys of a map are written in sorted order, and that a value
of an unsupported type makes the encoder return an error. Those three rules are written
out here. How a Go string is quoted and escaped, how the structs and header maps are laid
out and how the output is indented stay parameters: they depend on the Go release. -/

/-- The alphabet of `base64.StdEncoding`. -/
def base64.encodeStd : Bytes :=
  ascii "ABCDEFGHIJKLMNOPQRSTUVWXYZabcdefghijklmnopqrstuvwxyz0123456789+/"

/-- The character of a six-bit value. -/
def base64.digit (n : Nat) : Byte := base64.encodeStd.getD n 0

/-- The padding character `=`. -/
def base64.StdPadding : Byte := 61

/-- The method `base64.StdEncoding.EncodeToString`: three bytes give four characters, and
a group of one or two bytes at the end is padded. -/
def base64.StdEncoding.EncodeToString : Bytes → GoString
  | [] => []
  | [a] => [base64.digit (a.val / 4), base64.digit (a.val % 4 * 16),
      base64.StdPadding, base64.StdPadding]
  | [a, b] => [base64.digit (a.val / 4), base64.digit (a.val % 4 * 16 + b.val / 16),
      base64.digit (b.val % 16 * 4), base64.StdPadding]
  | a :: b :: c :: rest =>
      base64.digit (a.val / 4) :: base64.digit (a.val % 4 * 16 + b.val / 16) ::
      base64.digit (b.val % 16 * 4 + c.val / 64) :: base64.digit (c.val % 64) ::
      base64.StdEncoding.EncodeToString rest

/-- The renderings of `encoding/json` that are left open. -/
structure Encoders where
  /-- The JSON string literal of a Go string, quotes included. -/
  string : GoString → Bytes
  /-- The JSON object of a `url.URL`. -/
  url : URL → Bytes
  /-- The JSON object of the contents of an `http.Header`. -/
  headers : Header → Bytes
  /-- The function `json.Indent`. -/
  indent : Bytes → String → String → Bytes

/-- The encoding of one value: an `int` in decimal, a `[]byte` as the base64 string of its
bytes between quotes, an unsupported type as an error. -/
def json.encodeValue (enc : Encoders) (heap : Heap) : Value → Except String Bytes
  | Value.int n => Except.ok (ascii (toString n))
  | Value.str s => Except.ok (enc.string s)
  | Value.bytes b =>
      Except.ok (ascii "\"" ++ base64.StdEncoding.EncodeToString b ++ ascii "\"")
  | Value.headers ref => Except.ok (enc.headers (heap ref))
  | Value.url u => Except.ok (enc.url u)
  | Value.unsupported goType => Except.error ("json: unsupported type: " ++ goType)

/-- The members `"key":value` of an object, in the order given; the first value that
cannot be encoded stops the encoder. -/
def json.encodeFields (enc : Encoders) (heap : Heap) :
    List (String × Value) → Except String (List Bytes)
  | [] => Except.ok []
  | (key, v) :: rest =>
      match json.encodeValue enc heap v with
      | Except.error e => Except.error e
      | Except.ok encoded =>
          match json.encodeFields enc heap rest with
          | Except.error e => Except.error e
          | Except.ok members =>
              Except.ok ((enc.string (ascii key) ++ ascii ":" ++ encoded) :: members)

/-- The order of Go strings: lexicographic, byte by byte. -/
def GoString.le : GoString → GoString → Bool
  | [], _ => true
  | _ :: _, [] => false
  | a :: s, b :: t => decide (a < b) || (a == b && GoString.le s t)

/-- The function `json.Marshal` on a `map[string]interface{}`: the members sorted by key,
between braces and separated by commas; on an error, no bytes and the error. -/
def json.Marshal (enc : Encoders) (heap : Heap) (m : Fields) : Bytes × Option String :=
  match json.encodeFields enc heap
      (m.insertionSort fun a b => GoString.le (ascii a.1) (ascii b.1) = true) with
  | Except.ok members =>
      (ascii "\x7b" ++ List.intercalate (ascii ",") members ++ ascii "\x7d", none)
  | Except.error e => ([], some e)

/-- The function `json.MarshalIndent`: `json.Marshal` followed by `json.Indent`. -/
def json.MarshalIndent (enc : Encoders) (heap : Heap) (m : Fields) (pfx indent : String) :
    Bytes × Option String :=
  match json.Marshal enc heap m with
  | (b, none) => (enc.indent b pfx indent, none)
  | (_, some e) => ([], some e)

/-- The package `encoding/json` over the given renderings. -/
def encodingJSON (enc : Encoders) : JSON where
  Marshal := json.Marshal enc
  MarshalIndent := json.MarshalIndent enc

/-- An encoder that is forced to fail: it returns `out` and an error on every input. -/
def failingJSON (out : Bytes) (err : String) : JSON where
  Marshal := fun _ _ => (out, some err)
  MarshalIndent := fun _ _ _ _ => (out, some err)

/-- The request of the scenario: a `POST` whose body is `hello`, delivered in one
read. -/
def helloRequest : Request where
  Method := ascii "POST"
  URL := ⟨ascii "http", ascii "localhost:3128", ascii "/", []⟩
  Header := 0
  Body := chunkedBody [ascii "hello"]

/-- The reverse proxy of the run in which the upstream answers 200, delivers `par` and
then fails: the status and the bytes are written, and the copy error makes the reverse
proxy panic with `http.ErrAbortHandler`. -/
def abortingProxy : RecordingProxy where
  ReverseProxy := fun _ =>
    Handler.WriteHeader 200
      (Handler.Write (ascii "par") fun _ => Handler.abort "net/http: abort Handler")

/-- A `Jsonable` whose mapping holds a channel, which `encoding/json` cannot
represent. -/
def channelJsonable : Jsonable Unit where
  Map := fun u => ([("updates", Value.unsupported "chan int")], u)

/-! ## Vocabulary of the statements -/

/-- The status code of the last `WriteHeader` call of a sequence, `init` when the
sequence has none. -/
def lastStatus (init : Int) : List Call → Int
  | [] => init
  | Call.WriteHeader statusCode :: rest => lastStatus statusCode rest
  | Call.Write _ :: rest => lastStatus init rest

/-- The other order of the two statements of `Write`, for comparison only (it is not
what the source does): hand the chunk to the real writer first, and append it once that
call has returned. -/
def ResponseRecorder.forwardThenAppend {σ : Type} (impl : http.ResponseWriter σ)
    (rr : ResponseRecorder σ) (b : Bytes) : Outcome WriteResult × ResponseRecorder σ :=
  match impl.Write rr.ResponseWriter b with
  | (Outcome.returned res, real) =>
      (Outcome.returned res, { rr with ResponseWriter := real, body := rr.body ++ b })
  | (Outcome.panicked v, real) => (Outcome.panicked v, { rr with ResponseWriter := real })

/-- The event is an emission on the operational log. -/
def Event.isLog : Event → Bool
  | Event.logPrintf _ _ => true
  | _ => false

end Proxy

/-! # Properties -/

namespace Proxy

/-! ## Reading a body to completion -/

/-- The function `ioutil.ReadAll` is the loop over `Read`: one call, then by its error
value either stop (with `nil` for `io.EOF`) or go on with the reader that remains. -/
theorem ReadAll_eq_loop (r : Reader) :
    ioutil.ReadAll r =
      match r.Read.1.err with
      | none => (r.Read.1.data ++ (ioutil.ReadAll r.Read.2).1, (ioutil.ReadAll r.Read.2).2)
      | some ReadErr.EOF => (r.Read.1.data, none)
      | some (ReadErr.failure msg) => (r.Read.1.data, some (ReadErr.failure msg)) := by
  cases r with
  | nil => rfl
  | cons res rest =>
      obtain ⟨data, err⟩ := res
      cases err with
      | none => rfl
      | some e => cases e <;> rfl

/-- Reading a stream of chunks to completion yields the chunks in order and no error. -/
theorem ReadAll_chunkedBody (chunks : List Bytes) :
    ioutil.ReadAll (chunkedBody chunks) = (chunks.flatten, none) := by
  induction chunks with
  | nil => rfl
  | cons c rest ih =>
      show ioutil.ReadAll (⟨c, none⟩ :: chunkedBody rest) = _
      simp [ioutil.ReadAll, ih]

/-- Reading a stream that fails yields what was delivered up to the failure, the bytes
that came with it included, and the failure. -/
theorem ReadAll_failingBody (chunks : List Bytes) (last : Bytes) (msg : String)
    (rest : Reader) :
    ioutil.ReadAll (failingBody chunks last msg rest)
      = (chunks.flatten ++ last, some (ReadErr.failure msg)) := by
  induction chunks with
  | nil => simp [failingBody, chunkedBody, ioutil.ReadAll]
  | cons c more ih =>
      show ioutil.ReadAll (⟨c, none⟩ :: failingBody more last msg rest) = _
      simp [ioutil.ReadAll, ih]

/-- Reading a fresh buffer to completion yields its contents and no error. -/
theorem ReadAll_NewBuffer (buf : Bytes) :
    ioutil.ReadAll (ioutil.NopCloser (bytes.NewBuffer buf)) = (buf, none) := by
  unfold ioutil.NopCloser bytes.NewBuffer
  by_cases h : buf = []
  · simp [h, ioutil.ReadAll]
  · simp [h, ioutil.ReadAll]

/-- The result of `jsonableRequest.Map` in terms of what `ReadAll` returned. -/
theorem jsonableRequest.Map_eq (r : Request) :
    jsonableRequest.Map r =
      ([("method", Value.str r.Method), ("url", Value.url r.URL),
        ("headers", Value.headers r.Header),
        ("body", Value.bytes (ioutil.ReadAll r.Body).1)],
       { r with Body := ioutil.NopCloser (bytes.NewBuffer (ioutil.ReadAll r.Body).1) }) := by
  rfl

/-- C1 (body replay). Whatever the chunks in which a request body `B` arrives, after
`jsonableRequest.Map` the request carries a fresh reader over `B`, reading that reader
to completion yields exactly `B` without error, the value under `"body"` in the mapping
is the byte slice `B`, and nothing else of the request has changed. -/
theorem body_replay (r : Request) (chunks : List Bytes) :
    let out := jsonableRequest.Map { r with Body := chunkedBody chunks }
    out.2.Body = ioutil.NopCloser (bytes.NewBuffer chunks.flatten)
      ∧ ioutil.ReadAll out.2.Body = (chunks.flatten, none)
      ∧ out.1.get "body" = some (Value.bytes chunks.flatten)
      ∧ out.2 = { r with Body := out.2.Body } := by
  intro out
  have hout : out = jsonableRequest.Map { r with Body := chunkedBody chunks } := rfl
  rw [jsonableRequest.Map_eq, ReadAll_chunkedBody] at hout
  rw [hout]
  exact ⟨rfl, ReadAll_NewBuffer _, rfl, rfl⟩

/-- C8 (body read failure). When the body stream fails after it has delivered the bytes
`P` (the chunks and the bytes that came with the failure), `ReadAll` does report the
failure, and `jsonableRequest.Map` returns all the same: its mapping holds `P` under
`"body"`, and the request carries a fresh reader that reads back exactly `P` without
error. -/
theorem body_read_failure (r : Request) (chunks : List Bytes) (last : Bytes) (msg : String)
    (rest : Reader) :
    let body := failingBody chunks last msg rest
    let P := chunks.flatten ++ last
    (ioutil.ReadAll body).2 = some (ReadErr.failure msg)
      ∧ jsonableRequest.Map { r with Body := body } =
          ([("method", Value.str r.Method), ("url", Value.url r.URL),
            ("headers", Value.headers r.Header), ("body", Value.bytes P)],
           { r with Body := ioutil.NopCloser (bytes.NewBuffer P) })
      ∧ (jsonableRequest.Map { r with Body := body }).1.get "body" = some (Value.bytes P)
      ∧ ioutil.ReadAll (jsonableRequest.Map { r with Body := body }).2.Body = (P, none) := by
  intro body P
  have hmap : jsonableRequest.Map { r with Body := body } =
      ([("method", Value.str r.Method), ("url", Value.url r.URL),
        ("headers", Value.headers r.Header), ("body", Value.bytes P)],
       { r with Body := ioutil.NopCloser (bytes.NewBuffer P) }) := by
    rw [jsonableRequest.Map_eq]
    show (_, _) = _
    simp only [body, ReadAll_failingBody]
  refine ⟨?_, hmap, ?_, ?_⟩
  · simp only [body, ReadAll_failingBody]
  · rw [hmap]; rfl
  · rw [hmap]; exact ReadAll_NewBuffer P

/-! ## The recorder in front of the real writer -/

section Recorder

variable {σ : Type}

/-- A sequence of calls on the recorder: the real writer ends where the same calls made
on it directly would leave it, the `Write` calls return the same results and the
sequence ends the same way; the status is the last one among the calls made and the body
has grown by the chunks of the calls made. -/
theorem performCalls_asWriter (impl : http.ResponseWriter σ) (calls : List Call)
    (rr : ResponseRecorder σ) :
    performCalls (ResponseRecorder.asWriter impl) calls rr =
      (⟨(performCalls impl calls rr.ResponseWriter).1,
        lastStatus rr.statusCode (callsMade impl calls rr.ResponseWriter),
        rr.body ++ (writtenChunks (callsMade impl calls rr.ResponseWriter)).flatten⟩,
       (performCalls impl calls rr.ResponseWriter).2) := by
  induction calls generalizing rr with
  | nil => simp [performCalls, callsMade, lastStatus, writtenChunks]
  | cons call rest ih =>
      obtain ⟨w, statusCode, body⟩ := rr
      cases call with
      | WriteHeader c =>
          cases hw : impl.WriteHeader w c with
          | mk res w1 =>
              cases res with
              | returned u =>
                  simp only [performCalls, callsMade, ResponseRecorder.asWriter,
                    ResponseRecorder.WriteHeader, hw]
                  exact ih _
              | panicked v =>
                  simp [performCalls, callsMade, ResponseRecorder.asWriter,
                    ResponseRecorder.WriteHeader, hw, lastStatus, writtenChunks]
      | Write b =>
          cases hw : impl.Write w b with
          | mk res w1 =>
              cases res with
              | returned x =>
                  simp only [performCalls, callsMade, ResponseRecorder.asWriter,
                    ResponseRecorder.Write, hw]
                  have h := ih ⟨w1, statusCode, body ++ b⟩
                  simp only [ResponseRecorder.asWriter] at h
                  rw [h]
                  simp [lastStatus, writtenChunks]
              | panicked v =>
                  simp [performCalls, callsMade, ResponseRecorder.asWriter,
                    ResponseRecorder.Write, hw, lastStatus, writtenChunks]

/-- When no call of a sequence panics, every call of the sequence is made. -/
theorem callsMade_of_returned (impl : http.ResponseWriter σ) (calls : List Call) (w : σ)
    (h : (performCalls impl calls w).2.2 = Outcome.returned ()) :
    callsMade impl calls w = calls := by
  induction calls generalizing w with
  | nil => rfl
  | cons call rest ih =>
      cases call with
      | WriteHeader c =>
          cases hw : impl.WriteHeader w c with
          | mk res w1 =>
              cases res with
              | returned u =>
                  simp only [performCalls, hw] at h
                  simp only [callsMade, hw, ih w1 h]
              | panicked v => simp [performCalls, hw] at h
      | Write b =>
          cases hw : impl.Write w b with
          | mk res w1 =>
              cases res with
              | returned x =>
                  simp only [performCalls, hw] at h
                  simp only [callsMade, hw, ih w1 h]
              | panicked v => simp [performCalls, hw] at h

/-- The real writer that keeps its calls has received, after a sequence of calls, that
sequence, and no call has panicked. -/
theorem performCalls_wireWriter (header : Ref) (reply : List Call → Bytes → WriteResult)
    (calls received : List Call) :
    (performCalls (wireWriter header reply) calls received).1 = received ++ calls
      ∧ (performCalls (wireWriter header reply) calls received).2.2 = Outcome.returned () := by
  induction calls generalizing received with
  | nil => simp [performCalls]
  | cons call rest ih =>
      cases call with
      | WriteHeader statusCode =>
          have h := ih (received ++ [Call.WriteHeader statusCode])
          simp only [List.append_assoc, List.singleton_append] at h
          simpa [performCalls, wireWriter] using h
      | Write b =>
          have h := ih (received ++ [Call.Write b])
          simp only [List.append_assoc, List.singleton_append] at h
          simpa [performCalls, wireWriter] using h

/-- The chunks written by a sequence of `Write` calls are the chunks of the calls. -/
theorem writtenChunks_map_Write (chunks : List Bytes) :
    writtenChunks (chunks.map Call.Write) = chunks := by
  induction chunks with
  | nil => rfl
  | cons c rest ih => simp [writtenChunks, ih]

/-- The calls made of a sequence of `Write` calls write no status. -/
theorem lastStatus_callsMade_map_Write (impl : http.ResponseWriter σ) (init : Int)
    (chunks : List Bytes) (w : σ) :
    lastStatus init (callsMade impl (chunks.map Call.Write) w) = init := by
  induction chunks generalizing w with
  | nil => rfl
  | cons c rest ih =>
      cases hw : impl.Write w c with
      | mk res w1 =>
          cases res with
          | returned x => simp [callsMade, hw, lastStatus, ih]
          | panicked v => simp [callsMade, hw, lastStatus]

/-- A handler run against the recorder leaves the real writer and the header maps, and
ends, as the same handler does when it is run against the real writer seen through the
interface alone. -/
theorem Handler.run_asWriter (impl : http.ResponseWriter σ) (h : Handler)
    (rr : ResponseRecorder σ) (heap : Heap) :
    (((h.run (ResponseRecorder.asWriter impl) (rr, heap)).1.1.ResponseWriter,
      (h.run (ResponseRecorder.asWriter impl) (rr, heap)).1.2),
      (h.run (ResponseRecorder.asWriter impl) (rr, heap)).2)
      = h.run impl.interfaceOnly (rr.ResponseWriter, heap) := by
  induction h generalizing rr heap with
  | done => rfl
  | abort v => rfl
  | Header k ih => exact ih _ rr heap
  | WriteHeader statusCode k ih =>
      obtain ⟨w, c, body⟩ := rr
      cases hw : impl.WriteHeader w statusCode with
      | mk res w1 =>
          cases res with
          | returned u =>
              have h := ih ⟨w1, statusCode, body⟩ heap
              simpa [Handler.run, ResponseRecorder.asWriter, ResponseRecorder.WriteHeader,
                http.ResponseWriter.interfaceOnly, hw] using h
          | panicked v =>
              simp [Handler.run, ResponseRecorder.asWriter, ResponseRecorder.WriteHeader,
                http.ResponseWriter.interfaceOnly, hw]
  | Write b k ih =>
      obtain ⟨w, c, body⟩ := rr
      cases hw : impl.Write w b with
      | mk res w1 =>
          cases res with
          | returned x =>
              have h := ih x ⟨w1, c, body ++ b⟩ heap
              simpa [Handler.run, ResponseRecorder.asWriter, ResponseRecorder.Write,
                http.ResponseWriter.interfaceOnly, hw] using h
          | panicked v =>
              simp [Handler.run, ResponseRecorder.asWriter, ResponseRecorder.Write,
                http.ResponseWriter.interfaceOnly, hw]
  | updateHeaders f k ih => exact ih rr _
  | optional iface supported fallback _ ih => exact ih rr heap

/-- A handler that makes a fixed sequence of calls leaves the writer where the sequence
leaves it and the header maps as they were, and ends as the sequence ends. -/
theorem Handler.run_ofCalls (impl : http.ResponseWriter σ) (calls : List Call) (w : σ)
    (heap : Heap) :
    (Handler.ofCalls calls).run impl (w, heap)
      = (((performCalls impl calls w).1, heap), (performCalls impl calls w).2.2) := by
  induction calls generalizing w with
  | nil => rfl
  | cons call rest ih =>
      cases call with
      | WriteHeader statusCode =>
          cases hw : impl.WriteHeader w statusCode with
          | mk res w1 =>
              cases res with
              | returned u => simp [Handler.ofCalls, Handler.run, performCalls, hw, ih]
              | panicked v => simp [Handler.ofCalls, Handler.run, performCalls, hw]
      | Write b =>
          cases hw : impl.Write w b with
          | mk res w1 =>
              cases res with
              | returned x => simp [Handler.ofCalls, Handler.run, performCalls, hw, ih]
              | panicked v => simp [Handler.ofCalls, Handler.run, performCalls, hw]

/-- A handler that never calls `WriteHeader` leaves the recorded status as it was,
however it ends. -/
theorem Handler.run_statusCode (impl : http.ResponseWriter σ) (h : Handler)
    (hnever : h.neverWritesHeader) (rr : ResponseRecorder σ) (heap : Heap) :
    (h.run (ResponseRecorder.asWriter impl) (rr, heap)).1.1.statusCode = rr.statusCode := by
  induction h generalizing rr heap with
  | done => rfl
  | abort v => rfl
  | Header k ih => exact ih _ (hnever _) rr heap
  | WriteHeader statusCode k _ => exact hnever.elim
  | Write b k ih =>
      obtain ⟨w, c, body⟩ := rr
      cases hw : impl.Write w b with
      | mk res w1 =>
          cases res with
          | returned x =>
              have h := ih x (hnever x) ⟨w1, c, body ++ b⟩ heap
              simpa [Handler.run, ResponseRecorder.asWriter, ResponseRecorder.Write, hw]
                using h
          | panicked v =>
              simp [Handler.run, ResponseRecorder.asWriter, ResponseRecorder.Write, hw]
  | updateHeaders f k ih => exact ih hnever rr _
  | optional iface supported fallback _ ih => exact ih hnever.2 rr heap

/-! ## The recording proxy -/

/-- The recorder and the header maps that `ServeHTTP` leaves, and the way it ends, are
those of the reverse proxy run, on the request with the replayed body, against a
recorder with status 200 and an empty body around the real writer. -/
theorem RecordingProxy.ServeHTTP_run (json : JSON) (p : RecordingProxy)
    (impl : http.ResponseWriter σ) (w : σ) (r : Request) (heap : Heap) :
    (((RecordingProxy.ServeHTTP json p impl w r heap).recorder,
      (RecordingProxy.ServeHTTP json p impl w r heap).heap),
      (RecordingProxy.ServeHTTP json p impl w r heap).ending) =
      (p.ReverseProxy (jsonableRequest.Map r).2).run (ResponseRecorder.asWriter impl)
        (⟨w, 200, []⟩, heap) := by
  unfold RecordingProxy.ServeHTTP
  cases hrun : (p.ReverseProxy (jsonableRequest.Map r).2).run (ResponseRecorder.asWriter impl)
      (⟨w, 200, []⟩, heap) with
  | mk s e =>
      obtain ⟨rr, heap1⟩ := s
      have hrun1 : Handler.run (ResponseRecorder.asWriter impl)
          (p.ReverseProxy (toJson json jsonableRequest.jsonable r heap).2.1)
          (⟨w, 200, []⟩, heap) = ((rr, heap1), e) := hrun
      cases e with
      | returned u => simp only [hrun1]; rfl
      | panicked v => simp only [hrun1]

/-- The events of `_toJson` are emissions on the operational log. -/
theorem _toJson_events_isLog {α : Type} (json : JSON) (J : Jsonable α) (rr : α)
    (pretty : Bool) (heap : Heap) :
    ∀ e ∈ (_toJson json J rr pretty heap).2.2, e.isLog = true := by
  intro e he
  unfold _toJson at he
  simp only at he
  split at he
  · simp only [List.mem_singleton] at he
    rw [he]; rfl
  · simp at he

/-- The events of `ServeHTTP`, in order: what comes after the call of the reverse proxy
is there only when that call returns. -/
theorem RecordingProxy.ServeHTTP_events (json : JSON) (p : RecordingProxy)
    (impl : http.ResponseWriter σ) (w : σ) (r : Request) (heap : Heap) :
    (RecordingProxy.ServeHTTP json p impl w r heap).events =
      (toJson json jsonableRequest.jsonable r heap).2.2
        ++ [Event.Printf "Proxying request: %s\n"
              (toJson json jsonableRequest.jsonable r heap).1]
        ++ [Event.forward (jsonableRequest.Map r).2]
        ++ match (RecordingProxy.ServeHTTP json p impl w r heap).ending with
           | Outcome.panicked _ => []
           | Outcome.returned _ =>
              (toJson json (ResponseRecorder.jsonable impl)
                (RecordingProxy.ServeHTTP json p impl w r heap).recorder
                (RecordingProxy.ServeHTTP json p impl w r heap).heap).2.2
              ++ [Event.Printf "Response: %s\n"
                  (toJson json (ResponseRecorder.jsonable impl)
                    (RecordingProxy.ServeHTTP json p impl w r heap).recorder
                    (RecordingProxy.ServeHTTP json p impl w r heap).heap).1] := by
  unfold RecordingProxy.ServeHTTP
  cases hrun : (p.ReverseProxy (jsonableRequest.Map r).2).run (ResponseRecorder.asWriter impl)
      (⟨w, 200, []⟩, heap) with
  | mk s e =>
      obtain ⟨rr, heap1⟩ := s
      have hrun1 : Handler.run (ResponseRecorder.asWriter impl)
          (p.ReverseProxy (toJson json jsonableRequest.jsonable r heap).2.1)
          (⟨w, 200, []⟩, heap) = ((rr, heap1), e) := hrun
      cases e with
      | returned u => simp only [hrun1, List.append_assoc]; rfl
      | panicked v => simp only [hrun1, List.append_nil]; rfl

/-! ## The claims on the recorder -/

/-- C2 (capture transparency). For every sequence of `WriteHeader` and `Write` calls made
on a recorder, the real writer ends in the state in which the same calls made on it
directly leave it, every `Write` returns what the direct call returns and the sequence
ends the same way; a real writer that keeps the calls it receives has received exactly
the calls made, in order, after those it had received before. For a caller that chooses
its steps according to what the earlier ones gave, the real writer ends as it does when
the caller is run against it through the interface alone. -/
theorem capture_transparency (impl : http.ResponseWriter σ) (rr : ResponseRecorder σ)
    (calls : List Call) :
    (performCalls (ResponseRecorder.asWriter impl) calls rr).1.ResponseWriter
        = (performCalls impl calls rr.ResponseWriter).1
      ∧ (performCalls (ResponseRecorder.asWriter impl) calls rr).2
        = (performCalls impl calls rr.ResponseWriter).2
      ∧ (∀ (header : Ref) (reply : List Call → Bytes → WriteResult) (received : List Call)
          (statusCode : Int) (body : Bytes),
          (performCalls (ResponseRecorder.asWriter (wireWriter header reply)) calls
            ⟨received, statusCode, body⟩).1.ResponseWriter = received ++ calls)
      ∧ (∀ (h : Handler) (heap : Heap),
          (((h.run (ResponseRecorder.asWriter impl) (rr, heap)).1.1.ResponseWriter,
            (h.run (ResponseRecorder.asWriter impl) (rr, heap)).1.2),
            (h.run (ResponseRecorder.asWriter impl) (rr, heap)).2)
            = h.run impl.interfaceOnly (rr.ResponseWriter, heap)) := by
  refine ⟨?_, ?_, ?_, ?_⟩
  · rw [performCalls_asWriter]
  · rw [performCalls_asWriter]
  · intro header reply received statusCode body
    rw [performCalls_asWriter]
    exact (performCalls_wireWriter header reply calls received).1
  · intro h heap
    exact Handler.run_asWriter impl h rr heap

/-- C3 (accumulation). A recorder created with an empty body holds, after a sequence of
calls, the concatenation in call order of the chunks of the `Write` calls that were
made, whatever the real writer answered and whatever `WriteHeader` calls came in
between. When every call returns, these are the chunks of all the `Write` calls of the
sequence: after `Write(C1)`, ..., `Write(CN)` the body is `C1 ++ ... ++ CN`. The same
holds for the recorder of `ServeHTTP` when the reverse proxy makes those calls. -/
theorem accumulation (impl : http.ResponseWriter σ) (w : σ) (statusCode : Int)
    (calls : List Call) :
    (performCalls (ResponseRecorder.asWriter impl) calls ⟨w, statusCode, []⟩).1.body
        = (writtenChunks (callsMade impl calls w)).flatten
      ∧ ((performCalls impl calls w).2.2 = Outcome.returned () →
          (performCalls (ResponseRecorder.asWriter impl) calls ⟨w, statusCode, []⟩).1.body
            = (writtenChunks calls).flatten)
      ∧ (∀ chunks : List Bytes,
          (performCalls impl (chunks.map Call.Write) w).2.2 = Outcome.returned () →
          (performCalls (ResponseRecorder.asWriter impl) (chunks.map Call.Write)
            ⟨w, statusCode, []⟩).1.body = chunks.flatten)
      ∧ (∀ (json : JSON) (r : Request) (heap : Heap),
          (RecordingProxy.ServeHTTP json ⟨fun _ => Handler.ofCalls calls⟩ impl w r
            heap).recorder.body = (writtenChunks (callsMade impl calls w)).flatten)
      ∧ (∀ (json : JSON) (r : Request) (heap : Heap),
          (performCalls impl calls w).2.2 = Outcome.returned () →
          (RecordingProxy.ServeHTTP json ⟨fun _ => Handler.ofCalls calls⟩ impl w r
            heap).recorder.body = (writtenChunks calls).flatten) := by
  have hserve : ∀ (json : JSON) (r : Request) (heap : Heap),
      (RecordingProxy.ServeHTTP json ⟨fun _ => Handler.ofCalls calls⟩ impl w r
        heap).recorder.body = (writtenChunks (callsMade impl calls w)).flatten := by
    intro json r heap
    have h := congrArg (fun s => s.1.1)
      (RecordingProxy.ServeHTTP_run json ⟨fun _ => Handler.ofCalls calls⟩ impl w r heap)
    simp only at h
    rw [h, Handler.run_ofCalls, performCalls_asWriter]; simp
  refine ⟨?_, ?_, ?_, hserve, ?_⟩
  · rw [performCalls_asWriter]; simp
  · intro hret
    rw [performCalls_asWriter, callsMade_of_returned impl calls w hret]; simp
  · intro chunks hret
    rw [performCalls_asWriter, callsMade_of_returned impl _ w hret,
      writtenChunks_map_Write]; simp
  · intro json r heap hret
    rw [hserve, callsMade_of_returned impl calls w hret]

/-- C4 (status default). When the reverse proxy, run by `ServeHTTP`, makes no
`WriteHeader` call, the recorder ends with status 200 and its `Map` holds the integer
200 under `"statusCode"`; so it is after any sequence of `Write` calls alone. -/
theorem status_default (json : JSON) (p : RecordingProxy) (impl : http.ResponseWriter σ)
    (w : σ) (r : Request) (heap : Heap)
    (hnever : (p.ReverseProxy (jsonableRequest.Map r).2).neverWritesHeader) :
    (RecordingProxy.ServeHTTP json p impl w r heap).recorder.statusCode = 200
      ∧ (ResponseRecorder.Map impl
          (RecordingProxy.ServeHTTP json p impl w r heap).recorder).get "statusCode"
          = some (Value.int 200)
      ∧ (∀ chunks : List Bytes,
          (performCalls (ResponseRecorder.asWriter impl) (chunks.map Call.Write)
            ⟨w, 200, []⟩).1.statusCode = 200) := by
  have h := congrArg (fun s => s.1.1) (RecordingProxy.ServeHTTP_run json p impl w r heap)
  simp only at h
  have hs : (RecordingProxy.ServeHTTP json p impl w r heap).recorder.statusCode = 200 := by
    rw [h, Handler.run_statusCode impl _ hnever]
  refine ⟨hs, ?_, ?_⟩
  · show some (Value.int _) = _
    rw [hs]
  · intro chunks
    rw [performCalls_asWriter]
    exact lastStatus_callsMade_map_Write impl 200 chunks w

/-- C6 (response mapping). `ResponseRecorder.Map` returns the three keys `"statusCode"`,
`"headers"` and `"body"` and no other: the recorded status as an integer, the header
map of the real writer itself (the reference its `Header()` returns), and the recorded
body as a string, not as a byte slice. -/
theorem response_mapping (impl : http.ResponseWriter σ) (rr : ResponseRecorder σ) :
    ResponseRecorder.Map impl rr =
        [("statusCode", Value.int rr.statusCode),
         ("headers", Value.headers (impl.Header rr.ResponseWriter)),
         ("body", Value.str rr.body)]
      ∧ (ResponseRecorder.Map impl rr).keys = ["statusCode", "headers", "body"]
      ∧ (ResponseRecorder.Map impl rr).get "statusCode" = some (Value.int rr.statusCode)
      ∧ (ResponseRecorder.Map impl rr).get "headers"
          = some (Value.headers (impl.Header rr.ResponseWriter))
      ∧ (ResponseRecorder.Map impl rr).get "body" = some (Value.str rr.body)
      ∧ (ResponseRecorder.Map impl rr).get "body" ≠ some (Value.bytes rr.body) := by
  refine ⟨rfl, rfl, rfl, rfl, rfl, ?_⟩
  show some (Value.str rr.body) ≠ _
  intro h
  cases h

/-- C7 (write result). `ResponseRecorder.Write(b)` ends as the real writer's `Write(b)`
ends: when that call returns `(n, err)` the recorder returns `(n, err)`, when it panics
the recorder panics with the same value. The real writer is left as that call leaves it
and the status is left alone. The chunk is appended before it is forwarded: the
recorded body holds the chunk however the real call ends, also when the real call
panics and so never comes back to the recorder. -/
theorem write_result (impl : http.ResponseWriter σ) (rr : ResponseRecorder σ) (b : Bytes) :
    (ResponseRecorder.Write impl rr b).1 = (impl.Write rr.ResponseWriter b).1
      ∧ (∀ (n : Int) (err : Option String),
          (impl.Write rr.ResponseWriter b).1 = Outcome.returned (n, err) →
          (ResponseRecorder.Write impl rr b).1 = Outcome.returned (n, err))
      ∧ (ResponseRecorder.Write impl rr b).2.ResponseWriter = (impl.Write rr.ResponseWriter b).2
      ∧ (ResponseRecorder.Write impl rr b).2.statusCode = rr.statusCode
      ∧ (ResponseRecorder.Write impl rr b).2.body = rr.body ++ b
      ∧ (∀ v : String, (impl.Write rr.ResponseWriter b).1 = Outcome.panicked v →
          (ResponseRecorder.Write impl rr b).1 = Outcome.panicked v
            ∧ (ResponseRecorder.Write impl rr b).2.body = rr.body ++ b) := by
  have h1 : (ResponseRecorder.Write impl rr b).1 = (impl.Write rr.ResponseWriter b).1 := rfl
  refine ⟨h1, ?_, rfl, rfl, rfl, ?_⟩
  · intro n err h
    rw [h1, h]
  · intro v h
    exact ⟨by rw [h1, h], rfl⟩

end Recorder

/-- The order of the two statements of `Write` can be told: on a real writer whose
`Write` panics, appending first leaves the chunk in the recorded body and forwarding
first does not. -/
theorem ResponseRecorder.Write_order_observable :
    (ResponseRecorder.Write (brokenWriter 1 "boom") ⟨[], 200, ascii "ab"⟩ (ascii "c")).2.body
        = ascii "abc"
      ∧ (ResponseRecorder.forwardThenAppend (brokenWriter 1 "boom") ⟨[], 200, ascii "ab"⟩
          (ascii "c")).2.body = ascii "ab" := by
  decide

/-- Witness of C3: the chunks `he` and `llo` with a `WriteHeader` in between, on a real
writer that keeps its calls. -/
theorem accumulation_witness :
    (performCalls (wireWriter 1 fun _ b => (b.length, none))
        [Call.Write (ascii "he"), Call.WriteHeader 201, Call.Write (ascii "llo")] []).2.2
        = Outcome.returned ()
      ∧ (performCalls (ResponseRecorder.asWriter (wireWriter 1 fun _ b => (b.length, none)))
          [Call.Write (ascii "he"), Call.WriteHeader 201, Call.Write (ascii "llo")]
          ⟨[], 200, []⟩).1.body
          = (writtenChunks
              [Call.Write (ascii "he"), Call.WriteHeader 201, Call.Write (ascii "llo")]).flatten :=
  ⟨by decide,
   (accumulation (wireWriter 1 fun _ b => (b.length, none)) [] 200
      [Call.Write (ascii "he"), Call.WriteHeader 201, Call.Write (ascii "llo")]).2.1
      (by decide)⟩

/-- Witness of C4: a reverse proxy that writes the chunk `ok` and nothing else, in front
of a real writer that keeps its calls. -/
theorem status_default_witness :
    (Handler.Write (ascii "ok") fun _ => Handler.done).neverWritesHeader
      ∧ (RecordingProxy.ServeHTTP (failingJSON [] "forced")
          ⟨fun _ => Handler.Write (ascii "ok") fun _ => Handler.done⟩
          (wireWriter 1 fun _ b => (b.length, none)) [] helloRequest
          fun _ => []).recorder.statusCode = 200 :=
  ⟨fun _ => trivial,
   (status_default (failingJSON [] "forced")
      ⟨fun _ => Handler.Write (ascii "ok") fun _ => Handler.done⟩
      (wireWriter 1 fun _ b => (b.length, none)) [] helloRequest (fun _ => [])
      (fun _ => trivial)).1⟩

/-- Witness of C7: a real writer whose `Write` panics. The recorder, which held `ab`,
holds `abc` after the `Write` of `c` that panicked. -/
theorem write_result_witness :
    ((brokenWriter 1 "boom").Write [] (ascii "c")).1 = Outcome.panicked "boom"
      ∧ (ResponseRecorder.Write (brokenWriter 1 "boom") ⟨[], 200, ascii "ab"⟩ (ascii "c")).1
          = Outcome.panicked "boom"
      ∧ (ResponseRecorder.Write (brokenWriter 1 "boom") ⟨[], 200, ascii "ab"⟩ (ascii "c")).2.body
          = ascii "ab" ++ ascii "c" :=
  ⟨rfl,
   (write_result (brokenWriter 1 "boom") ⟨[], 200, ascii "ab"⟩ (ascii "c")).2.2.2.2.2
      "boom" rfl⟩

/-! ## The claims on the recording proxy -/

/-- C9 (ordering), on the code as it is. In every call of `ServeHTTP` the request line
is printed first and the reverse proxy is called next, once, with the recorder; the
response line follows only when that call returns, and nothing else is printed. When
the reverse proxy panics no response line is printed at all: so it is in the run in which
the upstream answers 200, delivers `par` and fails, where the real writer has received
the status and the bytes and the events are the request line and the call alone. -/
theorem response_line_skipped_on_abort :
    (∀ (σ : Type) (json : JSON) (p : RecordingProxy) (impl : http.ResponseWriter σ) (w : σ)
        (r : Request) (heap : Heap),
        (RecordingProxy.ServeHTTP json p impl w r heap).events.filter (fun e => !e.isLog)
          = [Event.Printf "Proxying request: %s\n"
                (toJson json jsonableRequest.jsonable r heap).1,
             Event.forward (jsonableRequest.Map r).2]
            ++ match (RecordingProxy.ServeHTTP json p impl w r heap).ending with
               | Outcome.panicked _ => []
               | Outcome.returned _ =>
                  [Event.Printf "Response: %s\n"
                    (toJson json (ResponseRecorder.jsonable impl)
                      (RecordingProxy.ServeHTTP json p impl w r heap).recorder
                      (RecordingProxy.ServeHTTP json p impl w r heap).heap).1])
      ∧ (∀ (enc : Encoders) (heap : Heap),
          (RecordingProxy.ServeHTTP (encodingJSON enc) abortingProxy
              (wireWriter 1 fun _ b => (b.length, none)) [] helloRequest heap).ending
            = Outcome.panicked "net/http: abort Handler"
          ∧ (RecordingProxy.ServeHTTP (encodingJSON enc) abortingProxy
              (wireWriter 1 fun _ b => (b.length, none)) [] helloRequest
              heap).recorder.ResponseWriter
            = [Call.WriteHeader 200, Call.Write (ascii "par")]
          ∧ (RecordingProxy.ServeHTTP (encodingJSON enc) abortingProxy
              (wireWriter 1 fun _ b => (b.length, none)) [] helloRequest heap).events
            = [Event.Printf "Proxying request: %s\n"
                  (toJson (encodingJSON enc) jsonableRequest.jsonable helloRequest heap).1,
               Event.forward (jsonableRequest.Map helloRequest).2]) := by
  constructor
  · intro σ json p impl w r heap
    have h1 := _toJson_events_isLog json jsonableRequest.jsonable r false heap
    have h2 := _toJson_events_isLog json (ResponseRecorder.jsonable impl)
      (RecordingProxy.ServeHTTP json p impl w r heap).recorder false
      (RecordingProxy.ServeHTTP json p impl w r heap).heap
    have f1 : ((toJson json jsonableRequest.jsonable r heap).2.2).filter
        (fun e => !e.isLog) = [] := by
      rw [List.filter_eq_nil_iff]
      intro e he
      simp [h1 e he]
    have f2 : ((toJson json (ResponseRecorder.jsonable impl)
        (RecordingProxy.ServeHTTP json p impl w r heap).recorder
        (RecordingProxy.ServeHTTP json p impl w r heap).heap).2.2).filter
        (fun e => !e.isLog) = [] := by
      rw [List.filter_eq_nil_iff]
      intro e he
      simp [h2 e he]
    rw [RecordingProxy.ServeHTTP_events]
    cases (RecordingProxy.ServeHTTP json p impl w r heap).ending with
    | returned u =>
        simp only [List.filter_append, f1, f2]
        rfl
    | panicked v =>
        simp only [List.filter_append, f1]
        rfl
  · intro enc heap
    exact ⟨rfl, rfl, rfl⟩

/-- C10 (logging never blocks delivery). When the encoder fails on the mapping of `rr`,
in compact or in indented mode, `_toJson` still returns: its result is the bytes the
encoder handed back with its error, and the error goes to the operational log. And
whatever the encoder does on the request and on the response, `ServeHTTP` calls the
reverse proxy once, with the recorder, and the recorder with the real writer in it, the
header maps, the request and the way the call ends are exactly what they are with any
other encoder; the real writer ends as it does when the reverse proxy is run against
it through the interface alone. -/
theorem logging_failure_does_not_block {α : Type} (json : JSON) (J : Jsonable α) (rr : α)
    (pretty : Bool) (heap : Heap) (e : String)
    (hfail : (if pretty then json.MarshalIndent heap (J.Map rr).1 "" "    "
        else json.Marshal heap (J.Map rr).1).2 = some e) :
    (_toJson json J rr pretty heap).1
        = (if pretty then json.MarshalIndent heap (J.Map rr).1 "" "    "
            else json.Marshal heap (J.Map rr).1).1
      ∧ (_toJson json J rr pretty heap).2.1 = (J.Map rr).2
      ∧ (_toJson json J rr pretty heap).2.2 = [Event.logPrintf "%+v\n" e]
      ∧ (∀ (σ : Type) (other : JSON) (p : RecordingProxy) (impl : http.ResponseWriter σ)
          (w : σ) (r : Request) (heap1 : Heap),
          (RecordingProxy.ServeHTTP json p impl w r heap1).recorder
              = (RecordingProxy.ServeHTTP other p impl w r heap1).recorder
            ∧ (RecordingProxy.ServeHTTP json p impl w r heap1).heap
              = (RecordingProxy.ServeHTTP other p impl w r heap1).heap
            ∧ (RecordingProxy.ServeHTTP json p impl w r heap1).request
              = (RecordingProxy.ServeHTTP other p impl w r heap1).request
            ∧ (RecordingProxy.ServeHTTP json p impl w r heap1).ending
              = (RecordingProxy.ServeHTTP other p impl w r heap1).ending
            ∧ (((RecordingProxy.ServeHTTP json p impl w r heap1).recorder.ResponseWriter,
                (RecordingProxy.ServeHTTP json p impl w r heap1).heap),
                (RecordingProxy.ServeHTTP json p impl w r heap1).ending)
              = (p.ReverseProxy (jsonableRequest.Map r).2).run impl.interfaceOnly (w, heap1)
            ∧ (RecordingProxy.ServeHTTP json p impl w r heap1).events.filter
                (fun e => e matches Event.forward _)
              = [Event.forward (jsonableRequest.Map r).2]) := by
  have hlog : (_toJson json J rr pretty heap).2.2 = [Event.logPrintf "%+v\n" e] := by
    show (match (if pretty then json.MarshalIndent heap (J.Map rr).1 "" "    "
        else json.Marshal heap (J.Map rr).1).2 with
      | some e => [Event.logPrintf "%+v\n" e]
      | none => []) = _
    rw [hfail]
  refine ⟨rfl, rfl, hlog, ?_⟩
  intro σ other p impl w r heap1
  have hj := RecordingProxy.ServeHTTP_run json p impl w r heap1
  have ho := RecordingProxy.ServeHTTP_run other p impl w r heap1
  have hrun := Handler.run_asWriter impl (p.ReverseProxy (jsonableRequest.Map r).2)
    ⟨w, 200, []⟩ heap1
  rw [← hj] at hrun
  have heq := hj.trans ho.symm
  refine ⟨congrArg (fun s => s.1.1) heq, congrArg (fun s => s.1.2) heq, ?_,
    congrArg (fun s => s.2) heq, hrun, ?_⟩
  · have hreq : ∀ j : JSON, (RecordingProxy.ServeHTTP j p impl w r heap1).request
        = (jsonableRequest.Map r).2 := by
      intro j
      unfold RecordingProxy.ServeHTTP
      cases hr : (p.ReverseProxy (jsonableRequest.Map r).2).run
          (ResponseRecorder.asWriter impl) (⟨w, 200, []⟩, heap1) with
      | mk s e =>
          obtain ⟨rr1, heap2⟩ := s
          have hr1 : Handler.run (ResponseRecorder.asWriter impl)
              (p.ReverseProxy (toJson j jsonableRequest.jsonable r heap1).2.1)
              (⟨w, 200, []⟩, heap1) = ((rr1, heap2), e) := hr
          cases e with
          | returned u => simp only [hr1]; rfl
          | panicked v => simp only [hr1]; rfl
    rw [hreq json, hreq other]
  · have h1 := _toJson_events_isLog json jsonableRequest.jsonable r false heap1
    have h2 := _toJson_events_isLog json (ResponseRecorder.jsonable impl)
      (RecordingProxy.ServeHTTP json p impl w r heap1).recorder false
      (RecordingProxy.ServeHTTP json p impl w r heap1).heap
    have f1 : ((toJson json jsonableRequest.jsonable r heap1).2.2).filter
        (fun e => e matches Event.forward _) = [] := by
      rw [List.filter_eq_nil_iff]
      intro e he
      have := h1 e he
      cases e <;> simp_all [Event.isLog]
    have f2 : ((toJson json (ResponseRecorder.jsonable impl)
        (RecordingProxy.ServeHTTP json p impl w r heap1).recorder
        (RecordingProxy.ServeHTTP json p impl w r heap1).heap).2.2).filter
        (fun e => e matches Event.forward _) = [] := by
      rw [List.filter_eq_nil_iff]
      intro e he
      have := h2 e he
      cases e <;> simp_all [Event.isLog]
    rw [RecordingProxy.ServeHTTP_events]
    cases (RecordingProxy.ServeHTTP json p impl w r heap1).ending with
    | returned u =>
        simp only [List.filter_append, f1, f2]
        rfl
    | panicked v =>
        simp only [List.filter_append, f1]
        rfl

/-- Witness of C10: `encoding/json` on a mapping that holds a channel, in compact and
in indented mode. The encoder returns no bytes and an error; `_toJson` returns the empty
byte sequence and logs the error. And with the encoder that is forced to fail on the
request of the scenario, the recorder of `ServeHTTP` is the one it is with
`encoding/json`. -/
theorem logging_failure_does_not_block_witness :
    (json.Marshal ⟨fun s => s, fun _ => [], fun _ => [], fun b _ _ => b⟩ (fun _ => [])
        [("updates", Value.unsupported "chan int")]).2
        = some ("json: unsupported type: " ++ "chan int")
      ∧ (_toJson (encodingJSON ⟨fun s => s, fun _ => [], fun _ => [], fun b _ _ => b⟩)
          channelJsonable () false fun _ => []).1 = []
      ∧ (_toJson (encodingJSON ⟨fun s => s, fun _ => [], fun _ => [], fun b _ _ => b⟩)
          channelJsonable () false fun _ => []).2.2
          = [Event.logPrintf "%+v\n" ("json: unsupported type: " ++ "chan int")]
      ∧ (_toJson (encodingJSON ⟨fun s => s, fun _ => [], fun _ => [], fun b _ _ => b⟩)
          channelJsonable () true fun _ => []).1 = []
      ∧ (RecordingProxy.ServeHTTP (failingJSON [] "forced")
          ⟨fun _ => Handler.WriteHeader 201 (Handler.Write (ascii "ok") fun _ => Handler.done)⟩
          (wireWriter 1 fun _ b => (b.length, none)) [] helloRequest fun _ => []).recorder
          = (RecordingProxy.ServeHTTP
              (encodingJSON ⟨fun s => s, fun _ => [], fun _ => [], fun b _ _ => b⟩)
              ⟨fun _ => Handler.WriteHeader 201
                (Handler.Write (ascii "ok") fun _ => Handler.done)⟩
              (wireWriter 1 fun _ b => (b.length, none)) [] helloRequest
              fun _ => []).recorder :=
  ⟨rfl,
   (logging_failure_does_not_block
      (encodingJSON ⟨fun s => s, fun _ => [], fun _ => [], fun b _ _ => b⟩)
      channelJsonable () false (fun _ => []) ("json: unsupported type: " ++ "chan int")
      rfl).1,
   (logging_failure_does_not_block
      (encodingJSON ⟨fun s => s, fun _ => [], fun _ => [], fun b _ _ => b⟩)
      channelJsonable () false (fun _ => []) ("json: unsupported type: " ++ "chan int")
      rfl).2.2.1,
   (logging_failure_does_not_block
      (encodingJSON ⟨fun s => s, fun _ => [], fun _ => [], fun b _ _ => b⟩)
      channelJsonable () true (fun _ => []) ("json: unsupported type: " ++ "chan int")
      rfl).1,
   ((logging_failure_does_not_block (failingJSON [] "forced") jsonableRequest.jsonable
      helloRequest false (fun _ => []) "forced" rfl).2.2.2 (List Call)
      (encodingJSON ⟨fun s => s, fun _ => [], fun _ => [], fun b _ _ => b⟩)
      ⟨fun _ => Handler.WriteHeader 201 (Handler.Write (ascii "ok") fun _ => Handler.done)⟩
      (wireWriter 1 fun _ b => (b.length, none)) [] helloRequest (fun _ => [])).1⟩

/-! ## The request line of the scenario -/

/-- C5, evaluated on the request of the scenario (a `POST` with body `hello`). The value
under `"body"` in the request mapping is the byte slice, which `encoding/json` writes
as the base64 string `"aGVsbG8="`: that is the `body` member of the request line that
`toJson` returns, and it is not `"hello"`. The response mapping holds its body as a
string, which is written by the string encoder. -/
theorem request_body_is_base64 :
    (jsonableRequest.Map helloRequest).1.get "body" = some (Value.bytes (ascii "hello"))
      ∧ (∀ (enc : Encoders) (heap : Heap),
          json.encodeValue enc heap (Value.bytes (ascii "hello"))
            = Except.ok (ascii "\"aGVsbG8=\""))
      ∧ (∀ (enc : Encoders) (heap : Heap),
          (toJson (encodingJSON enc) jsonableRequest.jsonable helloRequest heap).1 =
            ascii "\x7b" ++ List.intercalate (ascii ",")
              [enc.string (ascii "body") ++ ascii ":" ++ ascii "\"aGVsbG8=\"",
               enc.string (ascii "headers") ++ ascii ":" ++ enc.headers (heap 0),
               enc.string (ascii "method") ++ ascii ":" ++ enc.string (ascii "POST"),
               enc.string (ascii "url") ++ ascii ":" ++ enc.url helloRequest.URL]
              ++ ascii "\x7d")
      ∧ ascii "\"aGVsbG8=\"" ≠ ascii "\"hello\""
      ∧ (∀ (enc : Encoders) (heap : Heap) (statusCode : Int),
          ((ResponseRecorder.Map (wireWriter 1 fun _ b => (b.length, none))
              ⟨[], statusCode, ascii "hello"⟩).get "body").map (json.encodeValue enc heap)
            = some (Except.ok (enc.string (ascii "hello")))) := by
  refine ⟨by decide, fun _ _ => rfl, fun _ _ => rfl, by decide, fun _ _ _ => rfl⟩

end Proxy
